import Mathlib

/-!
Verification of the document-lifecycle and audit-ledger core of the PII
application: the AuditTrail Solidity contract, the blockchain service
wrapper (`blockchainService.js`), the document/process controllers, and
the MongoDB TTL expiry, modelled as a shallow embedding.  Timestamps are
naturals, byte buffers are lists of naturals, and the content hash
function is a parameter (it models `crypto.createHash('sha256')`, an
external primitive).
-/

namespace PII

/-- An on-chain creation record (`struct DocumentLog` in `AuditTrail.sol`). -/
structure DocumentLog where
  fileHash : String
  user : String
  timestamp : Nat
deriving DecidableEq

/-- An on-chain access record (`struct AccessLog` in `AuditTrail.sol`). -/
structure AccessLog where
  accessor : String
  timestamp : Nat
deriving DecidableEq

/-- The Solidity default value of `DocumentLog`: what a mapping returns for
an absent key (empty string, zero address, zero timestamp). -/
def DocumentLog.empty : DocumentLog :=
  { fileHash := "", user := "0x0000000000000000000000000000000000000000", timestamp := 0 }

/-- First binding for a key in an association list (models a Solidity
mapping together with a default value; later bindings shadow earlier ones). -/
def assocFind {α β : Type} [DecidableEq α] : List (α × β) → α → Option β
  | [], _ => none
  | (k, v) :: rest, a => if k = a then some v else assocFind rest a

/-- State of the `AuditTrail` contract: the owner plus its two mappings,
`documentRecords` and `accessHistory`. -/
structure AuditTrail where
  owner : String
  documentRecords : List (String × DocumentLog)
  accessHistory : List (String × List AccessLog)
deriving DecidableEq

/-- `getDocumentRecord`: public mapping read, returning the default struct
for an unrecorded hash. -/
def AuditTrail.getDocumentRecord (st : AuditTrail) (fileHash : String) : DocumentLog :=
  (assocFind st.documentRecords fileHash).getD DocumentLog.empty

/-- `getAccessHistory`: public mapping read, returning `[]` for a hash with
no access records. -/
def AuditTrail.getAccessHistory (st : AuditTrail) (fileHash : String) : List AccessLog :=
  (assocFind st.accessHistory fileHash).getD []

/-- `AuditTrail.logNewDocument`: gated by `onlyOwner`, then requires that
`documentRecords[_fileHash].timestamp == 0`, then stores the creation
record.  An `error` result models a revert (state unchanged). -/
def AuditTrail.logNewDocument (st : AuditTrail) (sender fileHash user : String) (ts : Nat) :
    Except String AuditTrail :=
  if sender ≠ st.owner then
    .error "AuditTrail: Caller is not the owner"
  else if (st.getDocumentRecord fileHash).timestamp ≠ 0 then
    .error "AuditTrail: Document hash already exists"
  else
    .ok { st with documentRecords :=
      (fileHash, { fileHash := fileHash, user := user, timestamp := ts }) :: st.documentRecords }

/-- `AuditTrail.logAccess`: gated by `onlyOwner`, then requires that the
document exists (`timestamp != 0`), then pushes one access record onto the
history for that hash. -/
def AuditTrail.logAccess (st : AuditTrail) (sender fileHash accessor : String) (ts : Nat) :
    Except String AuditTrail :=
  if sender ≠ st.owner then
    .error "AuditTrail: Caller is not the owner"
  else if (st.getDocumentRecord fileHash).timestamp = 0 then
    .error "AuditTrail: Document does not exist"
  else
    .ok { st with accessHistory :=
      (fileHash, st.getAccessHistory fileHash ++ [{ accessor := accessor, timestamp := ts }])
        :: st.accessHistory }

/-- A mutating call submitted to the contract. -/
inductive LedgerOp where
  | newDoc (sender fileHash user : String) (ts : Nat)
  | access (sender fileHash accessor : String) (ts : Nat)
deriving DecidableEq

/-- Transaction semantics: a reverted call leaves contract state unchanged. -/
def applyOp (st : AuditTrail) : LedgerOp → AuditTrail
  | .newDoc s h u ts =>
    match st.logNewDocument s h u ts with
    | .ok st' => st'
    | .error _ => st
  | .access s h a ts =>
    match st.logAccess s h a ts with
    | .ok st' => st'
    | .error _ => st

/-- A sequence of submitted transactions, applied in order. -/
def applyOps (st : AuditTrail) (ops : List LedgerOp) : AuditTrail :=
  ops.foldl applyOp st

end PII

namespace PII

/-! ## Service layer (`blockchainService.js`)

Each wrapper signs with the configured wallet and catches every failure
(contract revert or unreachable network, modelled by `available = false`),
translating it to the generic thrown message.  Note that both write
wrappers pass `wallet.address` to the contract — `logDocumentCreation`
ignores its `userAddress` argument and `logDocumentAccess` ignores its
`accessorAddress` argument, exactly as in the source. -/

/-- `logDocumentCreation(fileHash, userAddress)`: submits
`logNewDocument(fileHash, wallet.address)` signed by the wallet, waits for
the transaction, and returns its hash; any failure becomes the thrown
message `Blockchain transaction failed.`. -/
def logDocumentCreation (available : Bool) (st : AuditTrail) (wallet : String) (ts : Nat)
    (txHash fileHash userAddress : String) : Except String (String × AuditTrail) :=
  if available then
    match st.logNewDocument wallet fileHash wallet ts with
    | .ok st' => .ok (txHash, st')
    | .error _ => .error "Blockchain transaction failed."
  else .error "Blockchain transaction failed."

/-- `logDocumentAccess(fileHash, accessorAddress)`: submits
`logAccess(fileHash, wallet.address)` signed by the wallet; the
`accessorAddress` argument is never forwarded to the contract. -/
def logDocumentAccess (available : Bool) (st : AuditTrail) (wallet : String) (ts : Nat)
    (txHash fileHash accessorAddress : String) : Except String (String × AuditTrail) :=
  if available then
    match st.logAccess wallet fileHash wallet ts with
    | .ok st' => .ok (txHash, st')
    | .error _ => .error "Blockchain transaction failed."
  else .error "Blockchain transaction failed."

/-- `verifyDocumentIntegrity(fileHash)`: reads the creation record and
compares its stored hash with the argument; any read failure is caught and
yields `false`. -/
def verifyDocumentIntegrity (available : Bool) (st : AuditTrail) (fileHash : String) : Bool :=
  if available then (st.getDocumentRecord fileHash).fileHash == fileHash
  else false

/-- `getDocumentAccessHistory(fileHash)`: reads the full access history;
any read failure is caught and yields `[]`. -/
def getDocumentAccessHistory (available : Bool) (st : AuditTrail) (fileHash : String) :
    List AccessLog :=
  if available then st.getAccessHistory fileHash else []

/-! ## Record store (`models/Document.js` and the controllers)

A stored document carries the schema fields the lifecycle logic uses.
The schema's TTL index `{ expireAt: 1 }, { expireAfterSeconds: 0 }` makes
MongoDB delete every document whose `expireAt` field is present and has
passed; documents whose `expireAt` is unset are never eligible. -/

/-- The mongoose document, restricted to the fields the lifecycle touches. -/
structure Doc where
  filename : String
  originalFile : List Nat
  originalFileHash : String
  user : Nat
  detectedPii : List String
  isSaved : Bool
  blockchainTransactionId : Option String
  expireAt : Option Nat
deriving DecidableEq

/-- An HTTP error response: `res.status(...)` plus the thrown message
(status 500 for an exception thrown with no status set). -/
structure HttpError where
  status : Nat
  message : String
deriving DecidableEq

/-- The schema default for `expireAt`: five minutes, in milliseconds. -/
def gracePeriodMs : Nat := 5 * 60 * 1000

/-- `Document.create` as performed by `uploadDocument`, with the schema
defaults: `isSaved = false`, `expireAt = now + 5 minutes`, hash of the
uploaded bytes computed immediately. -/
def mkDocument (hashFn : List Nat → String) (filename : String) (bytes : List Nat)
    (user : Nat) (now : Nat) : Doc :=
  { filename := filename
    originalFile := bytes
    originalFileHash := hashFn bytes
    user := user
    detectedPii := []
    isSaved := false
    blockchainTransactionId := none
    expireAt := some (now + gracePeriodMs) }

/-- `Document.findOne(\x7b _id: id, user \x7d)`: the document under `id`,
visible only to its owner. -/
def findOne (docs : List (Nat × Doc)) (id user : Nat) : Option Doc :=
  match assocFind docs id with
  | some d => if d.user = user then some d else none
  | none => none

/-- Persisting the mutated document under its id (`document.save()`). -/
def updateDoc (docs : List (Nat × Doc)) (id : Nat) (d : Doc) : List (Nat × Doc) :=
  docs.map fun p => if p.1 = id then (id, d) else p

/-- The MongoDB TTL sweep induced by the `expireAt` index: at time `now`
it deletes exactly the documents whose `expireAt` is present and `≤ now`. -/
def expireSweep (docs : List (Nat × Doc)) (now : Nat) : List (Nat × Doc) :=
  docs.filter fun p =>
    match p.2.expireAt with
    | some t => decide (now < t)
    | none => true

/-- `saveAndLogDocument` (the commit endpoint), acting on the looked-up
document: 404 if absent, 400 if already saved, otherwise it awaits the
ledger creation write and only then sets `isSaved`, stores the transaction
id, and clears `expireAt`.  The pair returns the response together with
the (possibly updated) contract state. -/
def saveAndLogDocument (found : Option Doc) (available : Bool) (st : AuditTrail)
    (wallet userAddress : String) (ts : Nat) (txHash : String) :
    Except HttpError (Doc × String) × AuditTrail :=
  match found with
  | none => (.error { status := 404, message := "Document not found." }, st)
  | some doc =>
    if doc.isSaved then
      (.error { status := 400, message := "Document has already been saved and logged." }, st)
    else
      match logDocumentCreation available st wallet ts txHash doc.originalFileHash userAddress with
      | .error e => (.error { status := 500, message := e }, st)
      | .ok (transactionId, st') =>
        (.ok ({ doc with isSaved := true
                         blockchainTransactionId := some transactionId
                         expireAt := none }, transactionId), st')

/-- One commit request at the store level: look the document up, run
`saveAndLogDocument`, and persist the updated document only when the
handler succeeded (on a thrown error the mutation lines never run, so the
stored document is untouched). -/
def saveStep (docs : List (Nat × Doc)) (id user : Nat) (available : Bool) (st : AuditTrail)
    (wallet userAddress : String) (ts : Nat) (txHash : String) :
    List (Nat × Doc) × AuditTrail × Except HttpError String :=
  match saveAndLogDocument (findOne docs id user) available st wallet userAddress ts txHash with
  | (.ok (doc', txId), st') => (updateDoc docs id doc', st', .ok txId)
  | (.error e, st') => (docs, st', .error e)

/-- The response of the verify endpoint. -/
structure VerifyResponse where
  integrity : Bool
  message : String
  onChainHash : String
  currentHash : String
deriving DecidableEq

/-- `verifyDocument` (the verify endpoint): 400 unless the document exists
and is saved; recompute the hash of the stored bytes; on a local mismatch
answer immediately without consulting the ledger; otherwise ask
`verifyDocumentIntegrity` and report, echoing the locally stored hash in
the `onChainHash` field. -/
def verifyDocument (hashFn : List Nat → String) (found : Option Doc)
    (available : Bool) (st : AuditTrail) : Except HttpError VerifyResponse :=
  match found with
  | none => .error { status := 400, message := "Document not found or was not saved." }
  | some doc =>
    if doc.isSaved = false then
      .error { status := 400, message := "Document not found or was not saved." }
    else
      let currentHash := hashFn doc.originalFile
      if currentHash ≠ doc.originalFileHash then
        .ok { integrity := false
              message := "Verification Failed: The stored file does not match its original hash."
              onChainHash := "N/A"
              currentHash := currentHash }
      else
        let isValidOnChain := verifyDocumentIntegrity available st doc.originalFileHash
        .ok { integrity := isValidOnChain
              message :=
                if isValidOnChain then
                  "Document integrity verified successfully against the blockchain."
                else
                  "Verification Failed: The hash on the blockchain does not match."
              onChainHash := doc.originalFileHash
              currentHash := currentHash }

/-- `getAccessLogs` (the logs endpoint): 400 unless the document exists and
is saved; append one access record via `logDocumentAccess`, then read back
the full history for the document's hash. -/
def getAccessLogs (found : Option Doc) (available : Bool) (st : AuditTrail)
    (wallet userAddress : String) (ts : Nat) (txHash : String) :
    Except HttpError (String × List AccessLog) × AuditTrail :=
  match found with
  | none => (.error { status := 400, message := "Document not found or was not saved." }, st)
  | some doc =>
    if doc.isSaved = false then
      (.error { status := 400, message := "Document not found or was not saved." }, st)
    else
      match logDocumentAccess available st wallet ts txHash doc.originalFileHash userAddress with
      | .error e => (.error { status := 500, message := e }, st)
      | .ok (txId, st') =>
        (.ok (txId, getDocumentAccessHistory available st' doc.originalFileHash), st')

/-! ## The reachable states of the whole system

One store of documents plus one deployed contract, driven by the
endpoints: upload, PII detection, commit, access logging, explicit
deletion, and the TTL sweep. -/

/-- The shared state: the document collection and the contract. -/
structure Sys where
  docs : List (Nat × Doc)
  chain : AuditTrail
deriving DecidableEq

/-- One endpoint-level transition of the system. -/
inductive Step (hashFn : List Nat → String) : Sys → Sys → Prop where
  | upload (s : Sys) (id : Nat) (filename : String) (bytes : List Nat) (user now : Nat)
      (hfresh : assocFind s.docs id = none) :
      Step hashFn s ⟨(id, mkDocument hashFn filename bytes user now) :: s.docs, s.chain⟩
  | detect (s : Sys) (id user : Nat) (doc : Doc) (pii : List String)
      (hfind : findOne s.docs id user = some doc) :
      Step hashFn s ⟨updateDoc s.docs id { doc with detectedPii := pii }, s.chain⟩
  | save (s : Sys) (id user : Nat) (available : Bool) (wallet userAddress : String)
      (ts : Nat) (txHash : String) (docs' : List (Nat × Doc)) (st' : AuditTrail) (txId : String)
      (hok : saveStep s.docs id user available s.chain wallet userAddress ts txHash
               = (docs', st', .ok txId)) :
      Step hashFn s ⟨docs', st'⟩
  | logs (s : Sys) (id user : Nat) (available : Bool) (wallet userAddress : String)
      (ts : Nat) (txHash : String) (res : Except HttpError (String × List AccessLog))
      (st' : AuditTrail)
      (hres : getAccessLogs (findOne s.docs id user) available s.chain wallet userAddress ts txHash
                = (res, st')) :
      Step hashFn s ⟨s.docs, st'⟩
  | remove (s : Sys) (id user : Nat) (doc : Doc)
      (hfind : findOne s.docs id user = some doc) :
      Step hashFn s ⟨s.docs.filter (fun p => !(p.1 == id)), s.chain⟩
  | sweep (s : Sys) (now : Nat) :
      Step hashFn s ⟨expireSweep s.docs now, s.chain⟩

/-- The states reachable from a fresh deployment (empty store, freshly
constructed contract owned by its deployer). -/
inductive Reachable (hashFn : List Nat → String) : Sys → Prop where
  | init (deployer : String) :
      Reachable hashFn ⟨[], { owner := deployer, documentRecords := [], accessHistory := [] }⟩
  | step {s s' : Sys} : Reachable hashFn s → Step hashFn s s' → Reachable hashFn s'

/-! ## Concrete fixtures for instantiating the theorems -/

/-- A fixed content hash function for concrete instances (the digest of
every byte list is the string `h`). -/
def testHash : List Nat → String := fun _ => "h"

/-- A freshly deployed contract owned by wallet `W`. -/
def chain0 : AuditTrail := { owner := "W", documentRecords := [], accessHistory := [] }

/-- The contract after `logNewDocument("h", "W")` at timestamp 1. -/
def chain1 : AuditTrail :=
  { owner := "W"
    documentRecords := [("h", { fileHash := "h", user := "W", timestamp := 1 })]
    accessHistory := [] }

/-- The contract after `logNewDocument("h", "U")` at timestamp 1. -/
def chainU : AuditTrail :=
  { owner := "W"
    documentRecords := [("h", { fileHash := "h", user := "U", timestamp := 1 })]
    accessHistory := [] }

/-- A freshly uploaded test document (hash `h`, owner `0`, uploaded at 0). -/
def doc0 : Doc := mkDocument testHash "f" [] 0 0

/-- `doc0` after a successful commit that returned transaction `tx`. -/
def doc0Committed : Doc :=
  { doc0 with isSaved := true, blockchainTransactionId := some "tx", expireAt := none }

/-- A committed test document whose stored bytes still hash to its stored
content hash. -/
def docSaved : Doc :=
  { filename := "f", originalFile := [], originalFileHash := "h", user := 0
    detectedPii := [], isSaved := true, blockchainTransactionId := some "tx"
    expireAt := none }

/-- A committed test document whose stored bytes no longer hash to its
stored content hash (`testHash` yields `h`, the record says `g`). -/
def docTampered : Doc :=
  { filename := "f", originalFile := [], originalFileHash := "g", user := 0
    detectedPii := [], isSaved := true, blockchainTransactionId := some "tx"
    expireAt := none }

/-! ## Contract-level lemmas -/

theorem logNewDocument_ok {st st' : AuditTrail} {sender fileHash user : String} {ts : Nat}
    (h : st.logNewDocument sender fileHash user ts = .ok st') :
    sender = st.owner ∧ (st.getDocumentRecord fileHash).timestamp = 0 ∧
    st' = { st with documentRecords :=
      (fileHash, { fileHash := fileHash, user := user, timestamp := ts })
        :: st.documentRecords } := by
  unfold AuditTrail.logNewDocument at h
  split at h
  · exact absurd h (by simp)
  · split at h
    · exact absurd h (by simp)
    · refine ⟨by tauto, by tauto, ?_⟩
      simpa using h.symm

theorem logAccess_ok {st st' : AuditTrail} {sender fileHash accessor : String} {ts : Nat}
    (h : st.logAccess sender fileHash accessor ts = .ok st') :
    sender = st.owner ∧ (st.getDocumentRecord fileHash).timestamp ≠ 0 ∧
    st' = { st with accessHistory :=
      (fileHash, st.getAccessHistory fileHash ++ [{ accessor := accessor, timestamp := ts }])
        :: st.accessHistory } := by
  unfold AuditTrail.logAccess at h
  split at h
  · exact absurd h (by simp)
  · split at h
    · exact absurd h (by simp)
    · refine ⟨by tauto, by tauto, ?_⟩
      simpa using h.symm

theorem getAccessHistory_after_logAccess {st st' : AuditTrail}
    {sender fileHash accessor : String} {ts : Nat}
    (h : st.logAccess sender fileHash accessor ts = .ok st') :
    st'.getAccessHistory fileHash
      = st.getAccessHistory fileHash ++ [{ accessor := accessor, timestamp := ts }] := by
  obtain ⟨-, -, rfl⟩ := logAccess_ok h
  simp [AuditTrail.getAccessHistory, assocFind]

theorem logAccess_preserves_records {st st' : AuditTrail}
    {sender fileHash accessor : String} {ts : Nat}
    (h : st.logAccess sender fileHash accessor ts = .ok st') :
    st'.owner = st.owner ∧ st'.documentRecords = st.documentRecords := by
  obtain ⟨-, -, rfl⟩ := logAccess_ok h
  exact ⟨rfl, rfl⟩

/-- Any single transaction only ever extends an access history: whatever
was recorded for a hash is still its history's initial segment afterwards. -/
theorem applyOp_extends_history (st : AuditTrail) (op : LedgerOp) (h : String) :
    ∃ rest, (applyOp st op).getAccessHistory h = st.getAccessHistory h ++ rest := by
  cases op with
  | newDoc s hh u ts =>
    cases hcall : st.logNewDocument s hh u ts with
    | ok st' =>
      obtain ⟨-, -, rfl⟩ := logNewDocument_ok hcall
      exact ⟨[], by simp [applyOp, hcall, AuditTrail.getAccessHistory]⟩
    | error e => exact ⟨[], by simp [applyOp, hcall]⟩
  | access s hh a ts =>
    cases hcall : st.logAccess s hh a ts with
    | ok st' =>
      obtain ⟨-, -, rfl⟩ := logAccess_ok hcall
      by_cases hhh : hh = h
      · subst hhh
        exact ⟨[{ accessor := a, timestamp := ts }],
          by simp [applyOp, hcall, AuditTrail.getAccessHistory, assocFind]⟩
      · exact ⟨[], by simp [applyOp, hcall, AuditTrail.getAccessHistory, assocFind, hhh]⟩
    | error e => exact ⟨[], by simp [applyOp, hcall]⟩

/-- Iterating: a sequence of transactions only ever extends each history. -/
theorem applyOps_extends_history (st : AuditTrail) (ops : List LedgerOp) (h : String) :
    ∃ rest, (applyOps st ops).getAccessHistory h = st.getAccessHistory h ++ rest := by
  induction ops generalizing st with
  | nil => exact ⟨[], by simp [applyOps]⟩
  | cons op ops ih =>
    obtain ⟨r1, hr1⟩ := applyOp_extends_history st op h
    obtain ⟨r2, hr2⟩ := ih (applyOp st op)
    exact ⟨r1 ++ r2, by
      simp only [applyOps, List.foldl_cons] at hr2 ⊢
      rw [hr2, hr1, List.append_assoc]⟩

/-- A run of owner-signed access transactions for a recorded hash appends
exactly its entries, in order, to that hash's history. -/
theorem applyOps_accesses {w H : String} :
    ∀ (accs : List (String × Nat)) (st : AuditTrail),
      st.owner = w → (st.getDocumentRecord H).timestamp ≠ 0 →
      (applyOps st (accs.map fun a => LedgerOp.access w H a.1 a.2)).getAccessHistory H
        = st.getAccessHistory H ++ accs.map fun a => { accessor := a.1, timestamp := a.2 } := by
  intro accs
  induction accs with
  | nil => intro st _ _; simp [applyOps]
  | cons a rest ih =>
    intro st howner hrec
    have hcall : st.logAccess w H a.1 a.2 = .ok
        { st with accessHistory :=
          (H, st.getAccessHistory H ++ [{ accessor := a.1, timestamp := a.2 }])
            :: st.accessHistory } := by
      unfold AuditTrail.logAccess
      rw [if_neg (by simp [howner]), if_neg (by simpa using hrec)]
    have hstep : applyOp st (LedgerOp.access w H a.1 a.2)
        = { st with accessHistory :=
            (H, st.getAccessHistory H ++ [{ accessor := a.1, timestamp := a.2 }])
              :: st.accessHistory } := by
      simp only [applyOp, hcall]
    have hmain : applyOps st ((a :: rest).map fun a => LedgerOp.access w H a.1 a.2)
        = applyOps (applyOp st (LedgerOp.access w H a.1 a.2))
            (rest.map fun a => LedgerOp.access w H a.1 a.2) := rfl
    rw [hmain, hstep,
      ih { st with accessHistory :=
            (H, st.getAccessHistory H ++ [{ accessor := a.1, timestamp := a.2 }])
              :: st.accessHistory } howner hrec]
    simp [AuditTrail.getAccessHistory, assocFind, List.append_assoc]

/-! ## Store-level lemmas -/

theorem findOne_eq {docs : List (Nat × Doc)} {id user : Nat} {doc : Doc}
    (h : findOne docs id user = some doc) :
    assocFind docs id = some doc ∧ doc.user = user := by
  unfold findOne at h
  split at h
  · split at h
    · cases h
      refine ⟨by assumption, by assumption⟩
    · exact absurd h (by simp)
  · exact absurd h (by simp)

theorem assocFind_mem {docs : List (Nat × Doc)} {id : Nat} {doc : Doc}
    (h : assocFind docs id = some doc) : (id, doc) ∈ docs := by
  induction docs with
  | nil => simp [assocFind] at h
  | cons p rest ih =>
    obtain ⟨k, v⟩ := p
    by_cases hk : k = id
    · subst hk
      simp [assocFind] at h
      subst h
      exact List.mem_cons_self ..
    · rw [assocFind, if_neg hk] at h
      exact List.mem_cons_of_mem _ (ih h)

theorem assocFind_updateDoc {docs : List (Nat × Doc)} {id : Nat} {doc : Doc} (d' : Doc)
    (h : assocFind docs id = some doc) :
    assocFind (updateDoc docs id d') id = some d' := by
  induction docs with
  | nil => simp [assocFind] at h
  | cons p rest ih =>
    obtain ⟨k, v⟩ := p
    have hhead : updateDoc ((k, v) :: rest) id d'
        = (if k = id then (id, d') else (k, v)) :: updateDoc rest id d' := rfl
    by_cases hk : k = id
    · subst hk
      rw [hhead, if_pos rfl]
      simp [assocFind]
    · rw [assocFind, if_neg hk] at h
      rw [hhead, if_neg hk, assocFind, if_neg hk]
      exact ih h

theorem mem_updateDoc {docs : List (Nat × Doc)} {id : Nat} {d : Doc} {p : Nat × Doc}
    (hp : p ∈ updateDoc docs id d) : p = (id, d) ∨ p ∈ docs := by
  unfold updateDoc at hp
  obtain ⟨q, hq, hqe⟩ := List.mem_map.mp hp
  by_cases h1 : q.1 = id
  · rw [if_pos h1] at hqe
    exact Or.inl hqe.symm
  · rw [if_neg h1] at hqe
    exact Or.inr (hqe ▸ hq)

theorem saveAndLogDocument_ok {found : Option Doc} {available : Bool} {st st' : AuditTrail}
    {wallet userAddress : String} {ts : Nat} {txHash : String} {doc' : Doc} {txId : String}
    (h : saveAndLogDocument found available st wallet userAddress ts txHash
          = (.ok (doc', txId), st')) :
    ∃ doc, found = some doc ∧ doc.isSaved = false ∧
      doc' = { doc with isSaved := true
                        blockchainTransactionId := some txId
                        expireAt := none } ∧
      logDocumentCreation available st wallet ts txHash doc.originalFileHash userAddress
        = .ok (txId, st') := by
  cases found with
  | none => exact absurd h (by simp [saveAndLogDocument])
  | some doc =>
    cases hs : doc.isSaved with
    | true => exact absurd h (by simp [saveAndLogDocument, hs])
    | false =>
      cases hcall : logDocumentCreation available st wallet ts txHash
          doc.originalFileHash userAddress with
      | error e => exact absurd h (by simp [saveAndLogDocument, hs, hcall])
      | ok pr =>
        obtain ⟨tx2, st2⟩ := pr
        simp only [saveAndLogDocument, hs, hcall, Bool.false_eq_true, if_false,
          Prod.mk.injEq, Except.ok.injEq] at h
        obtain ⟨⟨hdoc, htx⟩, hst⟩ := h
        subst htx hst
        exact ⟨doc, rfl, hs, hdoc.symm, hcall⟩

theorem saveAndLogDocument_err {found : Option Doc} {available : Bool} {st st' : AuditTrail}
    {wallet userAddress : String} {ts : Nat} {txHash : String} {e : HttpError}
    (h : saveAndLogDocument found available st wallet userAddress ts txHash = (.error e, st')) :
    st' = st := by
  cases found with
  | none => simpa [saveAndLogDocument] using (congrArg Prod.snd h).symm
  | some doc =>
    cases hs : doc.isSaved with
    | true => simpa [saveAndLogDocument, hs] using (congrArg Prod.snd h).symm
    | false =>
      cases hcall : logDocumentCreation available st wallet ts txHash
          doc.originalFileHash userAddress with
      | error e2 => simpa [saveAndLogDocument, hs, hcall] using (congrArg Prod.snd h).symm
      | ok pr =>
        obtain ⟨tx2, st2⟩ := pr
        simp [saveAndLogDocument, hs, hcall] at h

theorem saveStep_ok {docs : List (Nat × Doc)} {id user : Nat} {available : Bool}
    {st st' : AuditTrail} {wallet userAddress : String} {ts : Nat} {txHash : String}
    {docs' : List (Nat × Doc)} {txId : String}
    (h : saveStep docs id user available st wallet userAddress ts txHash
          = (docs', st', .ok txId)) :
    ∃ doc, findOne docs id user = some doc ∧ doc.isSaved = false ∧
      docs' = updateDoc docs id
        { doc with isSaved := true
                   blockchainTransactionId := some txId
                   expireAt := none } ∧
      logDocumentCreation available st wallet ts txHash doc.originalFileHash userAddress
        = .ok (txId, st') := by
  unfold saveStep at h
  cases hcall : saveAndLogDocument (findOne docs id user) available st wallet userAddress
      ts txHash with
  | mk r st2 =>
    rw [hcall] at h
    cases r with
    | error e => simp at h
    | ok pr =>
      obtain ⟨doc2, tx2⟩ := pr
      simp only [Prod.mk.injEq, Except.ok.injEq] at h
      obtain ⟨h1, h2, h3⟩ := h
      subst h1 h2 h3
      obtain ⟨doc, hfind, hns, hdoc, hlog⟩ := saveAndLogDocument_ok hcall
      subst hdoc
      exact ⟨doc, hfind, hns, rfl, hlog⟩

/-! ## The storage invariant -/

/-- The per-document invariant: it is committed exactly when its expiry
timestamp has been cleared. -/
def DocInv (d : Doc) : Prop := d.isSaved = true ↔ d.expireAt = none

theorem docInv_mk (hashFn : List Nat → String) (f : String) (b : List Nat) (u now : Nat) :
    DocInv (mkDocument hashFn f b u now) := by
  simp [DocInv, mkDocument]

theorem sysInv_step {hashFn : List Nat → String} {s s' : Sys} (hstep : Step hashFn s s')
    (hinv : ∀ p ∈ s.docs, DocInv p.2) : ∀ p ∈ s'.docs, DocInv p.2 := by
  cases hstep with
  | upload id filename bytes user now hfresh =>
    intro p hp
    rcases List.mem_cons.mp hp with h | h
    · rw [h]
      exact docInv_mk ..
    · exact hinv p h
  | detect id user doc pii hfind =>
    intro p hp
    rcases mem_updateDoc hp with h | h
    · rw [h]
      have hdoc := hinv (id, doc) (assocFind_mem (findOne_eq hfind).1)
      simpa [DocInv] using hdoc
    · exact hinv p h
  | save id user available wallet userAddress ts txHash docs' st' txId hok =>
    intro p hp
    obtain ⟨doc, hfind, hns, hdocs, hlog⟩ := saveStep_ok hok
    rw [hdocs] at hp
    rcases mem_updateDoc hp with h | h
    · rw [h]
      simp [DocInv]
    · exact hinv p h
  | logs id user available wallet userAddress ts txHash res st' hres =>
    exact hinv
  | remove id user doc hfind =>
    intro p hp
    exact hinv p (List.mem_of_mem_filter hp)
  | sweep now =>
    intro p hp
    exact hinv p (List.mem_of_mem_filter hp)

/-- Every reachable state satisfies the committed-iff-no-expiry invariant. -/
theorem sysInv_of_reachable {hashFn : List Nat → String} {s : Sys}
    (h : Reachable hashFn s) : ∀ p ∈ s.docs, DocInv p.2 := by
  induction h with
  | init _ => intro p hp; simp at hp
  | step _ hstep ih => exact sysInv_step hstep ih

/-! ## The claims -/

/-- C2: at every reachable state of the store, a record is committed
(`isSaved = true`) exactly when its `expireAt` timestamp is absent:
creation sets `expireAt` to the grace period and the commit transition is
the only operation of the system that clears it, as the induction over
`Step` traverses operation by operation. -/
theorem committed_iff_no_expiry {hashFn : List Nat → String} {s : Sys} {id : Nat} {d : Doc}
    (hreach : Reachable hashFn s) (hmem : (id, d) ∈ s.docs) :
    (d.isSaved = true ↔ d.expireAt = none) ∧
    (∀ (f : String) (b : List Nat) (u now : Nat),
      (mkDocument hashFn f b u now).expireAt = some (now + gracePeriodMs)) ∧
    (∀ s2, Step hashFn s s2 → ∀ p ∈ s2.docs, p.2.expireAt = none → p.2.isSaved = true) := by
  refine ⟨sysInv_of_reachable hreach (id, d) hmem, fun f b u now => rfl, ?_⟩
  intro s2 hstep p hp hexp
  have hiff : p.2.isSaved = true ↔ p.2.expireAt = none :=
    sysInv_of_reachable (Reachable.step hreach hstep) p hp
  exact hiff.mpr hexp

/-- Witness for C2: the invariant instantiated at the state reached by one
upload into a fresh deployment. -/
theorem committed_iff_no_expiry_witness :
    ((doc0.isSaved = true ↔ doc0.expireAt = none) ∧
    (∀ (f : String) (b : List Nat) (u now : Nat),
      (mkDocument testHash f b u now).expireAt = some (now + gracePeriodMs)) ∧
    (∀ s2, Step testHash ⟨[(1, doc0)], chain0⟩ s2 →
      ∀ p ∈ s2.docs, p.2.expireAt = none → p.2.isSaved = true)) :=
  committed_iff_no_expiry
    (Reachable.step (Reachable.init "W") (Step.upload ⟨[], chain0⟩ 1 "f" [] 0 0 rfl))
    (List.mem_singleton.mpr rfl)

/-- C1: at every reachable state of the store and for every sweep time,
the TTL sweep keeps every committed record, and any record it does delete
was uncommitted with its expiry timestamp due. -/
theorem sweep_never_deletes_committed {hashFn : List Nat → String} {s : Sys} {id : Nat}
    {d : Doc} (now : Nat) (hreach : Reachable hashFn s) (hmem : (id, d) ∈ s.docs) :
    (d.isSaved = true → (id, d) ∈ expireSweep s.docs now) ∧
    ((id, d) ∉ expireSweep s.docs now → d.isSaved = false ∧
      ∃ t, d.expireAt = some t ∧ t ≤ now) := by
  have hinv : d.isSaved = true ↔ d.expireAt = none :=
    sysInv_of_reachable hreach (id, d) hmem
  constructor
  · intro hsaved
    have hexp : d.expireAt = none := hinv.mp hsaved
    exact List.mem_filter.mpr ⟨hmem, by simp [hexp]⟩
  · intro hnot
    have hp : ¬ ((fun p : Nat × Doc => match p.2.expireAt with
        | some t => decide (now < t)
        | none => true) (id, d) = true) :=
      fun hp => hnot (List.mem_filter.mpr ⟨hmem, hp⟩)
    cases hexp : d.expireAt with
    | none => exact absurd (by simp [hexp]) hp
    | some t =>
      have ht : ¬ now < t := fun hlt => hp (by simp [hexp, hlt])
      have hsv : d.isSaved = false := by
        cases hsv : d.isSaved
        · rfl
        · exact absurd (hinv.mp hsv) (by simp [hexp])
      exact ⟨hsv, t, rfl, Nat.le_of_not_lt ht⟩

/-- Witness for C1: the sweep facts instantiated at the state reached by
one upload into a fresh deployment, swept at time 0. -/
theorem sweep_never_deletes_committed_witness :
    (doc0.isSaved = true → (1, doc0) ∈ expireSweep [(1, doc0)] 0) ∧
    ((1, doc0) ∉ expireSweep [(1, doc0)] 0 → doc0.isSaved = false ∧
      ∃ t, doc0.expireAt = some t ∧ t ≤ 0) :=
  sweep_never_deletes_committed 0
    (Reachable.step (Reachable.init "W") (Step.upload ⟨[], chain0⟩ 1 "f" [] 0 0 rfl))
    (List.mem_singleton.mpr rfl)

/-- C3: committing an existing, uncommitted record is atomic with respect
to the ledger write: if the creation write fails, the stored documents and
the contract state are returned untouched and the thrown error is
surfaced; only upon a confirmed write does the handler set `isSaved`,
store the transaction reference, and clear `expireAt`. -/
theorem commit_unchanged_on_ledger_failure {docs : List (Nat × Doc)} {id user : Nat}
    {doc : Doc} (available : Bool) (st st' : AuditTrail) (wallet userAddress : String)
    (ts : Nat) (txHash e txId : String)
    (hfind : findOne docs id user = some doc) (hnot : doc.isSaved = false) :
    (logDocumentCreation available st wallet ts txHash doc.originalFileHash userAddress
        = .error e →
      saveStep docs id user available st wallet userAddress ts txHash
        = (docs, st, .error { status := 500, message := e })) ∧
    (logDocumentCreation available st wallet ts txHash doc.originalFileHash userAddress
        = .ok (txId, st') →
      saveStep docs id user available st wallet userAddress ts txHash
        = (updateDoc docs id
            { doc with isSaved := true
                       blockchainTransactionId := some txId
                       expireAt := none }, st', .ok txId)) := by
  constructor
  · intro hcall
    simp [saveStep, saveAndLogDocument, hfind, hnot, hcall]
  · intro hcall
    simp [saveStep, saveAndLogDocument, hfind, hnot, hcall]

/-- Witness for C3: one uploaded document, with the ledger unreachable, so
that the creation write fails and the failing branch fires. -/
theorem commit_unchanged_on_ledger_failure_witness :
    (logDocumentCreation false chain0 "W" 1 "tx" doc0.originalFileHash "U"
        = .error "Blockchain transaction failed." →
      saveStep [(1, doc0)] 1 0 false chain0 "W" "U" 1 "tx"
        = ([(1, doc0)], chain0,
            .error { status := 500, message := "Blockchain transaction failed." })) ∧
    (logDocumentCreation false chain0 "W" 1 "tx" doc0.originalFileHash "U"
        = .ok ("tx", chain0) →
      saveStep [(1, doc0)] 1 0 false chain0 "W" "U" 1 "tx"
        = (updateDoc [(1, doc0)] 1
            { doc0 with isSaved := true
                        blockchainTransactionId := some "tx"
                        expireAt := none }, chain0, .ok "tx")) :=
  commit_unchanged_on_ledger_failure false chain0 chain0 "W" "U" 1 "tx"
    "Blockchain transaction failed." "tx" rfl rfl

/-- C4: commit transitions a record at most once.  On an already-committed
record the handler rejects with the already-saved error before any ledger
write (the contract state passed in is returned untouched, whatever it
is); on an uncommitted record the first commit, once the ledger write
confirms, sets `isSaved`, and any subsequent commit — under any ledger
conditions — fails with the same rejection, leaving the stored documents
(hence `blockchainTransactionId` and `originalFileHash`) and the contract
unchanged. -/
theorem commit_at_most_once {docs : List (Nat × Doc)} {id user : Nat} {doc : Doc}
    (available : Bool) (st st' : AuditTrail) (wallet userAddress : String) (ts : Nat)
    (txHash txId : String) (available2 : Bool) (st2 : AuditTrail)
    (wallet2 userAddress2 : String) (ts2 : Nat) (txHash2 : String)
    (hfind : findOne docs id user = some doc) :
    (doc.isSaved = true →
      saveStep docs id user available st wallet userAddress ts txHash
        = (docs, st,
           .error { status := 400
                    message := "Document has already been saved and logged." })) ∧
    (doc.isSaved = false →
      logDocumentCreation available st wallet ts txHash doc.originalFileHash userAddress
        = .ok (txId, st') →
      saveStep docs id user available st wallet userAddress ts txHash
        = (updateDoc docs id
            { doc with isSaved := true
                       blockchainTransactionId := some txId
                       expireAt := none }, st', .ok txId) ∧
      saveStep (updateDoc docs id
            { doc with isSaved := true
                       blockchainTransactionId := some txId
                       expireAt := none }) id user available2 st2 wallet2 userAddress2
            ts2 txHash2
        = (updateDoc docs id
            { doc with isSaved := true
                       blockchainTransactionId := some txId
                       expireAt := none }, st2,
           .error { status := 400
                    message := "Document has already been saved and logged." })) := by
  obtain ⟨hlook, huser⟩ := findOne_eq hfind
  constructor
  · intro hs
    simp [saveStep, saveAndLogDocument, hfind, hs]
  · intro hs hcall
    refine ⟨by simp [saveStep, saveAndLogDocument, hfind, hs, hcall], ?_⟩
    have hfind2 : findOne (updateDoc docs id
        { doc with isSaved := true
                   blockchainTransactionId := some txId
                   expireAt := none }) id user
        = some { doc with isSaved := true
                          blockchainTransactionId := some txId
                          expireAt := none } := by
      unfold findOne
      rw [assocFind_updateDoc _ hlook]
      simp [huser]
    simp [saveStep, saveAndLogDocument, hfind2]

/-- Witness for C4: the first commit of a fresh document against a fresh
contract, and the rejection of a repeat commit of the result. -/
theorem commit_at_most_once_witness :
    (doc0.isSaved = true →
      saveStep [(1, doc0)] 1 0 true chain0 "W" "U" 1 "tx"
        = ([(1, doc0)], chain0,
           .error { status := 400
                    message := "Document has already been saved and logged." })) ∧
    (doc0.isSaved = false →
      logDocumentCreation true chain0 "W" 1 "tx" doc0.originalFileHash "U"
        = .ok ("tx", chain1) →
      saveStep [(1, doc0)] 1 0 true chain0 "W" "U" 1 "tx"
        = (updateDoc [(1, doc0)] 1 doc0Committed, chain1, .ok "tx") ∧
      saveStep (updateDoc [(1, doc0)] 1 doc0Committed) 1 0 false chain1 "W" "U" 2 "tx2"
        = (updateDoc [(1, doc0)] 1 doc0Committed, chain1,
           .error { status := 400
                    message := "Document has already been saved and logged." })) :=
  commit_at_most_once true chain0 chain1 "W" "U" 1 "tx" "tx" false chain1 "W" "U" 2 "tx2" rfl

/-- C5 counterexample: with the contract owned by wallet `W` and hash `h`
recorded, an access-log call performed for accessor `A` appends an entry
whose accessor field is `W` — the service wallet — although `A` performed
the access and `A ≠ W`. -/
theorem access_entry_accessor_counterexample :
    logDocumentAccess true chain1 "W" 5 "tx1" "h" "A"
      = .ok ("tx1",
          { owner := "W"
            documentRecords := [("h", { fileHash := "h", user := "W", timestamp := 1 })]
            accessHistory := [("h", [{ accessor := "W", timestamp := 5 }])] }) ∧
    ("W" : String) ≠ "A" :=
  ⟨rfl, by decide⟩

/-- C5 (amended): a successful access-log call appends exactly one entry,
but its accessor field is the service's configured wallet address — the
accessor argument is never forwarded to the contract, so every history
entry records the single writer identity rather than the user who
performed the access. -/
theorem access_entry_uses_wallet_address {available : Bool} {st st' : AuditTrail}
    {wallet txHash fileHash accessorAddress : String} {ts : Nat} {txId : String}
    (other : String)
    (hcall : logDocumentAccess available st wallet ts txHash fileHash accessorAddress
        = .ok (txId, st')) :
    st'.getAccessHistory fileHash
      = st.getAccessHistory fileHash ++ [{ accessor := wallet, timestamp := ts }] ∧
    logDocumentAccess available st wallet ts txHash fileHash other
      = logDocumentAccess available st wallet ts txHash fileHash accessorAddress := by
  refine ⟨?_, rfl⟩
  have hav : available = true := by
    cases available
    · simp [logDocumentAccess] at hcall
    · rfl
  subst hav
  cases hcc : st.logAccess wallet fileHash wallet ts with
  | error e => simp [logDocumentAccess, hcc] at hcall
  | ok stx =>
    simp [logDocumentAccess, hcc] at hcall
    rw [← hcall.2]
    exact getAccessHistory_after_logAccess hcc

/-- Witness for C5 (amended): the concrete call of the counterexample. -/
theorem access_entry_uses_wallet_address_witness :
    AuditTrail.getAccessHistory
        { owner := "W"
          documentRecords := [("h", { fileHash := "h", user := "W", timestamp := 1 })]
          accessHistory := [("h", [{ accessor := "W", timestamp := 5 }])] } "h"
      = chain1.getAccessHistory "h" ++ [{ accessor := "W", timestamp := 5 }] ∧
    logDocumentAccess true chain1 "W" 5 "tx1" "h" "B"
      = logDocumentAccess true chain1 "W" 5 "tx1" "h" "A" :=
  access_entry_uses_wallet_address "B" rfl

/-- C6 counterexample: a committed record with hash `h` and untampered
bytes, checked against a ledger on which `h` has no creation record: the
verdict is the on-chain mismatch failure, yet the response's
`onChainHash` field is the local hash `h`, while the hash actually
recorded on the ledger for `h` is the empty default — not `h`. -/
theorem verify_onchainhash_counterexample :
    verifyDocument testHash (some docSaved) true chain0
      = .ok { integrity := false
              message := "Verification Failed: The hash on the blockchain does not match."
              onChainHash := "h"
              currentHash := "h" } ∧
    (chain0.getDocumentRecord "h").fileHash = "" ∧ ("h" : String) ≠ "" :=
  ⟨rfl, rfl, by decide⟩

/-- C6 (amended): for a committed record whose stored bytes still hash to
its recorded `contentHash`, and with the ledger reachable, the verdict is
positive exactly when the hash the ledger stores under `contentHash`
equals it; the response's `onChainHash` field is the locally stored
content hash echoed back (never a value read from the ledger), and
`currentHash` is the recomputed local hash. -/
theorem verify_verdict_tracks_ledger {hashFn : List Nat → String} {doc : Doc}
    (st : AuditTrail) (hsaved : doc.isSaved = true)
    (hmatch : hashFn doc.originalFile = doc.originalFileHash) :
    verifyDocument hashFn (some doc) true st
      = .ok { integrity :=
                (st.getDocumentRecord doc.originalFileHash).fileHash == doc.originalFileHash
              message :=
                if (st.getDocumentRecord doc.originalFileHash).fileHash
                    == doc.originalFileHash then
                  "Document integrity verified successfully against the blockchain."
                else
                  "Verification Failed: The hash on the blockchain does not match."
              onChainHash := doc.originalFileHash
              currentHash := doc.originalFileHash } := by
  simp [verifyDocument, hsaved, hmatch, verifyDocumentIntegrity]

/-- Witness for C6 (amended): the committed, untampered document checked
against the contract that does record its hash — verdict positive. -/
theorem verify_verdict_tracks_ledger_witness :
    verifyDocument testHash (some docSaved) true chain1
      = .ok { integrity :=
                (chain1.getDocumentRecord docSaved.originalFileHash).fileHash
                  == docSaved.originalFileHash
              message :=
                if (chain1.getDocumentRecord docSaved.originalFileHash).fileHash
                    == docSaved.originalFileHash then
                  "Document integrity verified successfully against the blockchain."
                else
                  "Verification Failed: The hash on the blockchain does not match."
              onChainHash := docSaved.originalFileHash
              currentHash := docSaved.originalFileHash } :=
  verify_verdict_tracks_ledger chain1 rfl rfl

/-- C7: once `logNewDocument` has succeeded for a hash (necessarily at a
nonzero block timestamp), any further `logNewDocument` call for the same
hash reverts — whoever sends it — and the stored creation record and the
whole contract state are unaltered by the failed call. -/
theorem duplicate_creation_rejected (st st' : AuditTrail) (w h u1 sender u2 : String)
    (ts1 ts2 : Nat) (hts : ts1 ≠ 0)
    (hfirst : st.logNewDocument w h u1 ts1 = .ok st') :
    (∃ e, st'.logNewDocument sender h u2 ts2 = .error e) ∧
    st'.getDocumentRecord h = { fileHash := h, user := u1, timestamp := ts1 } ∧
    applyOp st' (.newDoc sender h u2 ts2) = st' := by
  obtain ⟨hsend, hzero, rfl⟩ := logNewDocument_ok hfirst
  have hrec : AuditTrail.getDocumentRecord
      { st with documentRecords :=
          (h, { fileHash := h, user := u1, timestamp := ts1 }) :: st.documentRecords } h
      = { fileHash := h, user := u1, timestamp := ts1 } := by
    simp [AuditTrail.getDocumentRecord, assocFind]
  have hfail : ∃ e, AuditTrail.logNewDocument
      { st with documentRecords :=
          (h, { fileHash := h, user := u1, timestamp := ts1 }) :: st.documentRecords }
      sender h u2 ts2 = .error e := by
    unfold AuditTrail.logNewDocument
    by_cases hsd : sender = st.owner
    · rw [if_neg (by simp [hsd]), if_pos (by rw [hrec]; exact hts)]
      exact ⟨_, rfl⟩
    · rw [if_pos (by simpa using hsd)]
      exact ⟨_, rfl⟩
  obtain ⟨e, he⟩ := hfail
  exact ⟨⟨e, he⟩, hrec, by simp [applyOp, he]⟩

/-- Witness for C7: hash `h` first recorded for user `U` at timestamp 1 on
a fresh contract; a second creation for `V` at timestamp 2 is rejected. -/
theorem duplicate_creation_rejected_witness :
    (∃ e, chainU.logNewDocument "W" "h" "V" 2 = .error e) ∧
    chainU.getDocumentRecord "h" = { fileHash := "h", user := "U", timestamp := 1 } ∧
    applyOp chainU (.newDoc "W" "h" "V" 2) = chainU :=
  duplicate_creation_rejected chain0 chainU "W" "h" "U" "W" "V" 1 2 (by decide) rfl

/-- C8: the per-hash access history is append-only.  Any sequence of
transactions only ever extends the history recorded for a hash (the
earlier history is an initial segment of the later one, so nothing is
reordered, mutated, or removed), and N successful owner-signed
`logAccess` calls for a recorded hash append exactly their N entries in
order, growing the history by exactly N. -/
theorem access_history_append_only (st : AuditTrail) (w H : String)
    (accs : List (String × Nat)) (anyOps : List LedgerOp)
    (howner : st.owner = w) (hrec : (st.getDocumentRecord H).timestamp ≠ 0) :
    (∃ rest, (applyOps st anyOps).getAccessHistory H = st.getAccessHistory H ++ rest) ∧
    (applyOps st (accs.map fun a => LedgerOp.access w H a.1 a.2)).getAccessHistory H
      = st.getAccessHistory H ++ accs.map (fun a => { accessor := a.1, timestamp := a.2 }) ∧
    ((applyOps st (accs.map fun a => LedgerOp.access w H a.1 a.2)).getAccessHistory H).length
      = (st.getAccessHistory H).length + accs.length := by
  refine ⟨applyOps_extends_history st anyOps H, applyOps_accesses accs st howner hrec, ?_⟩
  rw [applyOps_accesses accs st howner hrec]
  simp

/-- Witness for C8: two accesses (`A` at 2, `B` at 3) on the recorded hash
`h`, with an arbitrary mixed transaction batch for the extension fact. -/
theorem access_history_append_only_witness :
    (∃ rest, (applyOps chain1 [LedgerOp.access "W" "h" "A" 2]).getAccessHistory "h"
      = chain1.getAccessHistory "h" ++ rest) ∧
    (applyOps chain1 ([("A", 2), ("B", 3)].map fun a =>
        LedgerOp.access "W" "h" a.1 a.2)).getAccessHistory "h"
      = chain1.getAccessHistory "h"
          ++ [("A", 2), ("B", 3)].map (fun a => { accessor := a.1, timestamp := a.2 }) ∧
    ((applyOps chain1 ([("A", 2), ("B", 3)].map fun a =>
        LedgerOp.access "W" "h" a.1 a.2)).getAccessHistory "h").length
      = (chain1.getAccessHistory "h").length + [("A", 2), ("B", 3)].length :=
  access_history_append_only chain1 "W" "h" [("A", 2), ("B", 3)]
    [LedgerOp.access "W" "h" "A" 2] rfl (by decide)

/-- C9: on a committed record whose recomputed hash differs from the
stored content hash, verification answers the local-tamper failure with no
ledger information in it, and the response is identical for any two
ledger states and availabilities — no ledger read can influence it. -/
theorem tamper_detected_without_ledger (hashFn : List Nat → String) (doc : Doc)
    (av1 av2 : Bool) (st1 st2 : AuditTrail)
    (hsaved : doc.isSaved = true)
    (htamper : hashFn doc.originalFile ≠ doc.originalFileHash) :
    verifyDocument hashFn (some doc) av1 st1
      = .ok { integrity := false
              message :=
                "Verification Failed: The stored file does not match its original hash."
              onChainHash := "N/A"
              currentHash := hashFn doc.originalFile } ∧
    verifyDocument hashFn (some doc) av1 st1 = verifyDocument hashFn (some doc) av2 st2 := by
  have h1 : ∀ (av : Bool) (st : AuditTrail), verifyDocument hashFn (some doc) av st
      = .ok { integrity := false
              message :=
                "Verification Failed: The stored file does not match its original hash."
              onChainHash := "N/A"
              currentHash := hashFn doc.originalFile } := by
    intro av st
    simp [verifyDocument, hsaved, htamper]
  exact ⟨h1 av1 st1, (h1 av1 st1).trans (h1 av2 st2).symm⟩

/-- Witness for C9: the tampered document (stored hash `g`, bytes hashing
to `h`) checked once against an unreachable empty ledger and once against
a reachable ledger that records `h`. -/
theorem tamper_detected_without_ledger_witness :
    verifyDocument testHash (some docTampered) false chain0
      = .ok { integrity := false
              message :=
                "Verification Failed: The stored file does not match its original hash."
              onChainHash := "N/A"
              currentHash := testHash docTampered.originalFile } ∧
    verifyDocument testHash (some docTampered) false chain0
      = verifyDocument testHash (some docTampered) true chain1 :=
  tamper_detected_without_ledger testHash docTampered false true chain0 chain1 rfl (by decide)

/-- C10 counterexample: the empty-string hash has no creation record on a
fresh contract, yet `verifyDocumentIntegrity` returns `true`, not `false`:
the mapping's default record stores the empty string as its hash, which
compares equal to the queried empty hash. -/
theorem integrity_check_empty_hash_counterexample :
    chain0.documentRecords = [] ∧ verifyDocumentIntegrity true chain0 "" = true :=
  ⟨rfl, rfl⟩

/-- C10 (amended): the ledger-side integrity check never surfaces an
error: it is a total Boolean function; a failed ledger read yields
`false`, and a nonempty hash with no creation record also yields `false`
— the same negative verdict as a genuine mismatch.  (Restricted to
nonempty hashes: a real SHA-256 hex digest is never the empty string,
and the empty-string hash is the sole exception.) -/
theorem integrity_check_false_on_failure (st : AuditTrail) (h : String)
    (hne : h ≠ "") (hun : assocFind st.documentRecords h = none) :
    verifyDocumentIntegrity false st h = false ∧
    verifyDocumentIntegrity true st h = false := by
  refine ⟨rfl, ?_⟩
  have hempty : ("" : String) ≠ h := fun hcon => hne hcon.symm
  simp [verifyDocumentIntegrity, AuditTrail.getDocumentRecord, hun, DocumentLog.empty, hempty]

/-- Witness for C10 (amended): the nonempty hash `h` against a fresh
contract, with the ledger unreachable and reachable. -/
theorem integrity_check_false_on_failure_witness :
    verifyDocumentIntegrity false chain0 "h" = false ∧
    verifyDocumentIntegrity true chain0 "h" = false :=
  integrity_check_false_on_failure chain0 "h" (by decide) rfl

end PII
